import Mathlib

/-!
# simply-draw: shallow embedding and verification

This file embeds the interaction core of the simply-draw canvas application
(`App.tsx`): the data model (points, strokes, text labels), the interaction
state, the pointer/keyboard event handlers, the eraser engine, and the stroke
renderer, and proves or refutes the specification's claims about them.

Modelling conventions, matching the source's React semantics:
* Each React event handler runs against one render snapshot of the state.
  Plain `setX(value)` calls read that snapshot and are batched with
  last-write-wins, while functional `setX(prev => ...)` calls apply to the
  pending value.  Each handler is therefore embedded as one pure function
  `AppState → AppState` computed from the snapshot, with those batching rules
  applied by hand where two writes to the same field occur in one handler.
* `Date.now()` is an explicit `now : Nat` argument of the events that read it.
* Canvas 2D context and the canvas element are assumed present (the handlers'
  null guards are vacuous then); `ctx.measureText` is an uninterpreted
  parameter `measure : String → ℤ`.
* Screen coordinates are modelled as whole pixels (ℤ).  Every coordinate
  computation the handlers perform — sums, differences, absolute values,
  squares — is exact on ℤ and agrees with the source's float arithmetic on
  integer inputs.  Rendering emits exact rational coordinates (`Cmd` carries
  ℚ), since the smoothing renderer halves coordinate sums.
* The eraser's Euclidean test `sqrt(dx² + dy²) ≤ eraserSize / 2` is encoded
  square-root- and division-free as
  `0 ≤ eraserSize ∧ 4 * (dx² + dy²) ≤ eraserSize²`, which is equivalent.
-/

namespace SimplyDraw

/-- `interface Point { x, y }` from App.tsx. -/
structure Point where
  x : ℤ
  y : ℤ
deriving DecidableEq, Repr

/-- `interface TextElement { id, content, x, y }` from App.tsx. -/
structure TextElement where
  id : String
  content : String
  x : ℤ
  y : ℤ
deriving DecidableEq, Repr

/-- `type DrawingAction = Point[]` from App.tsx. -/
abbrev DrawingAction := List Point

/-- `type ToolType = 'pen' | 'eraser'` from App.tsx. -/
inductive Tool where
  | pen
  | eraser
deriving DecidableEq, Repr

/-- The React state hooks of the `App` component, plus the canvas element's
width/height attributes (which live on the DOM element, not in React state). -/
structure AppState where
  isDrawing : Bool
  isTyping : Bool
  activeTextId : Option String
  textElements : List TextElement
  drawingActions : List DrawingAction
  lastPoint : Option Point
  currentPath : List Point
  mouseDownTime : Nat
  mouseIsDown : Bool
  initialClickPos : Option Point
  activeTool : Tool
  eraserSize : ℤ
  canvasWidth : ℤ
  canvasHeight : ℤ
deriving DecidableEq, Repr

/-- `const [dragThreshold] = useState<number>(5)`. -/
def dragThreshold : ℤ := 5

/-- Reified canvas-2D drawing calls (geometry only; stroke styling such as
line width and colour is not reified, only the geometry the specification
speaks about). -/
inductive Cmd where
  | moveTo (x y : ℚ)
  | lineTo (x y : ℚ)
  | quadTo (cx cy ex ey : ℚ)
  | clearRect (x y w h : ℚ)
  | fillText (s : String) (x y : ℚ)
  | arc (x y r : ℚ)
deriving DecidableEq, Repr

/-- The origin, used as the (unreachable) default for in-bounds list reads. -/
def pt0 : Point := ⟨0, 0⟩

/-- The empty label, used as the (unreachable) default for in-bounds reads. -/
def noText : TextElement := ⟨"", "", 0, 0⟩

/-- `drawPath(ctx, path)`: the smoothing renderer for one stroke.  `moveTo`
the first point; for loop indices `1 ≤ i < path.length - 2` emit a quadratic
curve with control `path[i]` and endpoint the midpoint of `path[i]` and
`path[i+1]`; then the closing segment (a quadratic through the last two points
when the stroke has more than two points, else a straight `lineTo`). -/
def drawPath (path : List Point) : List Cmd :=
  if path.length < 2 then [] else
    Cmd.moveTo ((path.getD 0 pt0).x : ℚ) ((path.getD 0 pt0).y : ℚ) ::
    (((List.range (path.length - 2)).drop 1).map (fun i =>
        Cmd.quadTo ((path.getD i pt0).x : ℚ) ((path.getD i pt0).y : ℚ)
          ((((path.getD i pt0).x + (path.getD (i + 1) pt0).x : ℤ) : ℚ) / 2)
          ((((path.getD i pt0).y + (path.getD (i + 1) pt0).y : ℤ) : ℚ) / 2)) ++
      (if 2 < path.length then
        [Cmd.quadTo ((path.getD (path.length - 2) pt0).x : ℚ)
          ((path.getD (path.length - 2) pt0).y : ℚ)
          ((path.getD (path.length - 1) pt0).x : ℚ)
          ((path.getD (path.length - 1) pt0).y : ℚ)]
      else
        [Cmd.lineTo ((path.getD 1 pt0).x : ℚ) ((path.getD 1 pt0).y : ℚ)]))

/-- `redrawCanvas(ctx)`: clear, redraw all stored strokes, the in-progress
stroke when drawing, all text labels (the active one last, with the blinking
caret), and the eraser preview circle. -/
def redrawCanvas (measure : String → ℤ) (now : Nat) (s : AppState) : List Cmd :=
  [Cmd.clearRect 0 0 (s.canvasWidth : ℚ) (s.canvasHeight : ℚ)] ++
  (s.drawingActions.map drawPath).flatten ++
  (if s.isDrawing = true ∧ 2 ≤ s.currentPath.length then drawPath s.currentPath else []) ++
  (s.textElements.filter
      (fun t => !(some t.id == s.activeTextId) || !s.isTyping)).map
    (fun t => Cmd.fillText t.content (t.x : ℚ) (t.y : ℚ)) ++
  (match s.textElements.find? (fun t => some t.id == s.activeTextId) with
    | some t =>
      if s.isTyping = true then
        Cmd.fillText t.content (t.x : ℚ) (t.y : ℚ) ::
          (if now / 500 % 2 = 0 then
            [Cmd.moveTo ((t.x + measure t.content : ℤ) : ℚ) ((t.y - 14 : ℤ) : ℚ),
             Cmd.lineTo ((t.x + measure t.content : ℤ) : ℚ) ((t.y + 2 : ℤ) : ℚ)]
          else [])
      else []
    | none => []) ++
  (if s.activeTool = Tool.eraser ∧ s.mouseIsDown = true then
    match s.lastPoint with
    | some p => [Cmd.arc (p.x : ℚ) (p.y : ℚ) ((s.eraserSize : ℚ) / 2)]
    | none => []
  else [])

/-- The label built by `createTextAtPosition` (and by the Enter branch of
`handleKeyDown`): `id = Date.now().toString()`, empty content. -/
def createdLabel (now : Nat) (x y : ℤ) : TextElement :=
  { id := toString now, content := "", x := x, y := y }

/-- `finalizeCurrentText()`: when typing, remove the active label if its
content is empty, then leave typing mode and deactivate the label. -/
def finalizeCurrentText (s : AppState) : AppState :=
  if s.isTyping = false then s else
    let textElements' :=
      match s.textElements.find? (fun t => some t.id == s.activeTextId) with
      | some t =>
        if t.content.length = 0 then
          s.textElements.filter (fun t => !(some t.id == s.activeTextId))
        else s.textElements
      | none => s.textElements
    { s with textElements := textElements', isTyping := false, activeTextId := none }

/-- The Euclidean test `sqrt((p.x-ex)² + (p.y-ey)²) ≤ size / 2` of
`checkEraserIntersection`, in the equivalent square-root- and division-free
form `0 ≤ size ∧ 4·((p.x-ex)² + (p.y-ey)²) ≤ size²`. -/
def pointWithin (size ex ey : ℤ) (p : Point) : Bool :=
  decide (0 ≤ size ∧
    4 * ((p.x - ex) * (p.x - ex) + (p.y - ey) * (p.y - ey)) ≤ size * size)

/-- The inner loop of `checkEraserIntersection`: the indices of the points of
one stroke that lie within the eraser radius, in order. -/
def strokeHitIndices (size ex ey : ℤ) (path : List Point) : List Nat :=
  (path.enum.filter (fun ip => pointWithin size ex ey ip.2)).map (fun ip => ip.1)

/-- `checkEraserIntersection(eraserX, eraserY)`: for every stored stroke, the
indices of its points within `eraserSize / 2` of the eraser centre; strokes
with no hit are skipped. -/
def checkEraserIntersection (ex ey : ℤ) (s : AppState) : List (Nat × List Nat) :=
  s.drawingActions.enum.filterMap (fun ap =>
    let idxs := strokeHitIndices s.eraserSize ex ey ap.2
    if idxs.isEmpty then none else some (ap.1, idxs))

/-- One iteration of the `intersections.reverse().forEach` loop of
`applyEraser`, acting by splice/set/push on the stroke list:
* all points hit: remove the stroke;
* exactly one point hit, at an end: drop just that point;
* exactly one point hit, interior: the stroke is replaced in place by the
  prefix before the hit point, and the suffix after it is pushed at the end
  when it has at least 2 points (the prefix is kept unconditionally);
* several points hit: drop them all, keep the remainder when it has at least
  2 points, else remove the stroke. -/
def eraseOne (acts : List DrawingAction) (inter : Nat × List Nat) : List DrawingAction :=
  let ai := inter.1
  let ptIdxs := inter.2
  let path := acts.getD ai []
  if ptIdxs.length = path.length then
    acts.eraseIdx ai
  else if ptIdxs.length = 1 then
    let k := ptIdxs.headD 0
    if k = 0 ∨ k = path.length - 1 then
      acts.set ai ((path.enum.filter (fun ip => ip.1 != k)).map (fun ip => ip.2))
    else
      let pathBefore := path.take k
      let pathAfter := path.drop (k + 1)
      (acts.set ai pathBefore) ++ (if 2 ≤ pathAfter.length then [pathAfter] else [])
  else
    let newPath := (path.enum.filter (fun ip => !(ptIdxs.contains ip.1))).map (fun ip => ip.2)
    if 2 ≤ newPath.length then acts.set ai newPath else acts.eraseIdx ai

/-- `applyEraser(eraserX, eraserY)`: apply `eraseOne` to every intersected
stroke, processing intersections in reverse index order as the source does. -/
def applyEraser (ex ey : ℤ) (s : AppState) : AppState :=
  let inters := checkEraserIntersection ex ey s
  if inters.isEmpty then s
  else { s with drawingActions := inters.reverse.foldl eraseOne s.drawingActions }

/-- The hit test of `handleMouseDown`: the first label whose box
`[x, x + measuredWidth] × [y − 16, y]` contains the click. -/
def hitTestIndex (measure : String → ℤ) (x y : ℤ) (ts : List TextElement) : Option Nat :=
  ts.findIdx? (fun t =>
    decide (t.x ≤ x ∧ x ≤ t.x + measure t.content ∧ t.y - 16 ≤ y ∧ y ≤ t.y))

/-- `handleMouseDown`.  Note on the `else if (isTyping)` branch: the source
calls `finalizeCurrentText()` and then `createTextAtPosition(x, y)`.  Both
call `setTextElements` with a plain value computed from the handler's render
snapshot of `textElements`, so the second (append) overwrites the first
(filter): the previous label is not removed even when empty. -/
def handleMouseDown (measure : String → ℤ) (x y : ℤ) (now : Nat) (s : AppState) : AppState :=
  let s1 := { s with mouseIsDown := true, mouseDownTime := now,
                     lastPoint := some ⟨x, y⟩, initialClickPos := some ⟨x, y⟩ }
  if s.activeTool = Tool.eraser then
    applyEraser x y s1
  else
    match hitTestIndex measure x y s.textElements with
    | some i =>
      { s1 with isTyping := true, isDrawing := false,
                activeTextId := some ((s.textElements.getD i noText).id) }
    | none =>
      if s.isTyping = true then
        { s1 with textElements := s.textElements ++ [createdLabel now x y],
                  activeTextId := some (toString now), isTyping := true, isDrawing := false }
      else
        { s1 with currentPath := [⟨x, y⟩] }

/-- The drag-threshold test of `handleMouseMove`:
`|x − initial.x| > 5 || |y − initial.y| > 5`. -/
def crossedThreshold (p0 : Point) (x y : ℤ) : Bool :=
  decide (dragThreshold < |x - p0.x| ∨ dragThreshold < |y - p0.y|)

/-- `handleMouseMove`.  The threshold branch uses plain-value `set` calls
against the snapshot; the path append uses the functional
`setCurrentPath(prev => [...prev, {x, y}])`, so it applies to the pending
value, but is guarded by the snapshot's `isDrawing`. -/
def handleMouseMove (x y : ℤ) (s : AppState) : AppState :=
  if s.mouseIsDown = false then s else
  if s.activeTool = Tool.eraser then
    { applyEraser x y s with lastPoint := some ⟨x, y⟩ }
  else
    let crossed :=
      match s.initialClickPos with
      | some p0 => crossedThreshold p0 x y
      | none => false
    let s1 :=
      if crossed = true then
        if s.isTyping = true then
          let sf := finalizeCurrentText s
          { sf with isDrawing := true,
                    currentPath := [s.initialClickPos.getD ⟨x, y⟩, ⟨x, y⟩] }
        else if s.isDrawing = false then { s with isDrawing := true } else s
      else s
    let s2 :=
      if s.isDrawing = true then { s1 with currentPath := s1.currentPath ++ [⟨x, y⟩] }
      else s1
    { s2 with lastPoint := some ⟨x, y⟩ }

/-- `handleMouseUp`: a short (< 200 ms) pen click that was neither drawing nor
typing creates a label at the release point; a drag with at least 2 recorded
points commits the in-progress stroke; then the press bookkeeping is reset. -/
def handleMouseUp (x y : ℤ) (now : Nat) (s : AppState) : AppState :=
  let s1 :=
    if s.isDrawing = false ∧ s.isTyping = false ∧ now - s.mouseDownTime < 200 ∧
        s.activeTool = Tool.pen then
      { s with textElements := s.textElements ++ [createdLabel now x y],
               activeTextId := some (toString now), isTyping := true, isDrawing := false }
    else s
  let s2 :=
    if s.isDrawing = true ∧ 1 < s.currentPath.length then
      { s1 with drawingActions := s1.drawingActions ++ [s.currentPath], currentPath := [] }
    else s1
  { s2 with mouseIsDown := false, isDrawing := false, initialClickPos := none }

/-- The `onMouseLeave` handler: commit the in-progress stroke when it has at
least 2 points, and reset the drawing state. -/
def handleMouseLeave (s : AppState) : AppState :=
  let s1 :=
    if s.isDrawing = true ∧ 1 < s.currentPath.length then
      { s with drawingActions := s.drawingActions ++ [s.currentPath] }
    else s
  { s1 with mouseIsDown := false, isDrawing := false, currentPath := [] }

/-- Keyboard events as the handler distinguishes them: `e.key.length === 1`
(a printable character), `Backspace`, `Enter`, `Escape`, anything else. -/
inductive Key where
  | char (c : Char)
  | backspace
  | enter
  | escape
  | other (name : String)
deriving DecidableEq, Repr

/-- `handleKeyDown`: a no-op unless some label matches `activeTextId`; then a
printable character appends to its content, Backspace drops the last
character, Enter appends a fresh empty label 24 px below and activates it
(without any emptiness check on the old label), Escape finalizes. -/
def handleKeyDown (k : Key) (now : Nat) (s : AppState) : AppState :=
  match s.textElements.findIdx? (fun t => some t.id == s.activeTextId) with
  | none => s
  | some i =>
    let textEl := s.textElements.getD i noText
    match k with
    | Key.char c =>
      { s with isTyping := true,
               isDrawing := if s.isTyping = true then s.isDrawing else false,
               textElements :=
                 s.textElements.set i { textEl with content := textEl.content.push c } }
    | Key.backspace =>
      if 0 < textEl.content.length then
        { s with textElements :=
            s.textElements.set i { textEl with content := textEl.content.dropRight 1 } }
      else s
    | Key.enter =>
      { s with textElements := s.textElements ++
                 [{ id := toString now, content := "", x := textEl.x, y := textEl.y + 24 }],
               activeTextId := some (toString now) }
    | Key.escape => finalizeCurrentText s
    | Key.other _ => s

/-- The input events of the surface.  `inactivity` is the 3000 ms typing
timeout (its effect closure re-registers on every typing/text change, so it
sees the current state); `selectTool` is a toolbar click; `resize` is the
host-window resize (its rendering side is modelled separately, see
`resizeListener`). -/
inductive Event where
  | mouseDown (x y : ℤ) (now : Nat)
  | mouseMove (x y : ℤ)
  | mouseUp (x y : ℤ) (now : Nat)
  | mouseLeave
  | keyDown (k : Key) (now : Nat)
  | inactivity
  | selectTool (t : Tool)
  | resize (w h : ℤ)
deriving DecidableEq, Repr

/-- One event handled against the current state. -/
def step (measure : String → ℤ) (s : AppState) (e : Event) : AppState :=
  match e with
  | Event.mouseDown x y now => handleMouseDown measure x y now s
  | Event.mouseMove x y => handleMouseMove x y s
  | Event.mouseUp x y now => handleMouseUp x y now s
  | Event.mouseLeave => handleMouseLeave s
  | Event.keyDown k now => handleKeyDown k now s
  | Event.inactivity => if s.isTyping = true then finalizeCurrentText s else s
  | Event.selectTool t => { s with activeTool := t }
  | Event.resize w h => { s with canvasWidth := w, canvasHeight := h }

/-- The mount state: all hooks at their `useState` initial values. -/
def init : AppState :=
  { isDrawing := false, isTyping := false, activeTextId := none,
    textElements := [], drawingActions := [], lastPoint := none, currentPath := [],
    mouseDownTime := 0, mouseIsDown := false, initialClickPos := none,
    activeTool := Tool.pen, eraserSize := 20, canvasWidth := 1024, canvasHeight := 768 }

/-- The state after a trace of input events from mount. -/
def run (measure : String → ℤ) (trace : List Event) : AppState :=
  trace.foldl (step measure) init

/-- The `Date.now()` reading an event carries, when it reads the clock. -/
def eventTime : Event → Option Nat
  | Event.mouseDown _ _ now => some now
  | Event.mouseUp _ _ now => some now
  | Event.keyDown _ now => some now
  | _ => none

/-- The window `resize` listener.  It is registered once, in the mount-only
`useEffect`, so the `redrawCanvas` it invokes is the closure of the first
render and reads the mount render's snapshot of the stores (`mount`), not the
current state `s`; only the canvas element's width/height (read through
`ctx.canvas` at draw time) are current.  The React state itself is untouched;
the canvas dimension attributes change. -/
def resizeListener (measure : String → ℤ) (now : Nat) (w h : ℤ)
    (mount s : AppState) : AppState × List Cmd :=
  ({ s with canvasWidth := w, canvasHeight := h },
   redrawCanvas measure now { mount with canvasWidth := w, canvasHeight := h })

/-! ## Helper lemmas -/

lemma findIdx?_none {α} (p : α → Bool) (l : List α) (h : ∀ a ∈ l, p a = false) :
    l.findIdx? p = none :=
  List.findIdx?_eq_none_iff.mpr h

lemma str_len_zero (s : String) (h : s.length = 0) : s = "" := by
  cases s with
  | mk data =>
    have hd : data = [] := List.length_eq_zero.mp h
    subst hd
    rfl

lemma getD_append_len {α} (pre : List α) (x d : α) : (pre ++ [x]).getD pre.length d = x := by
  induction pre with
  | nil => rfl
  | cons a l ih => simp [ih]

lemma set_append_len {α} (pre : List α) (x v : α) :
    (pre ++ [x]).set pre.length v = pre ++ [v] := by
  induction pre with
  | nil => rfl
  | cons a l ih => simp [ih]

lemma findIdx?_append_sing {α} (p : α → Bool) (pre : List α) (x : α)
    (h : ∀ a ∈ pre, p a = false) (hx : p x = true) :
    (pre ++ [x]).findIdx? p = some pre.length := by
  rw [List.findIdx?_append, findIdx?_none p pre h]
  simp [List.findIdx?_cons, hx]

lemma find?_append_sing {α} (p : α → Bool) (pre : List α) (x : α)
    (h : ∀ a ∈ pre, p a = false) (hx : p x = true) :
    (pre ++ [x]).find? p = some x := by
  induction pre with
  | nil => simp [List.find?_cons, hx]
  | cons a l ih =>
    rw [List.cons_append, List.find?_cons_of_neg _ (by simp [h a (List.mem_cons_self a l)])]
    exact ih fun b hb => h b (List.mem_cons_of_mem a hb)

/-- Typing a character sequence into the last label of the store (whose id no
earlier label shares, and which is the active one) appends exactly those
characters to its content, in order, leaving the active id and typing flag
unchanged. -/
lemma type_chars_fold (cs : List Char) :
    ∀ (s : AppState) (pre : List TextElement) (lbl : TextElement),
    s.textElements = pre ++ [lbl] → s.activeTextId = some lbl.id →
    (∀ t ∈ pre, t.id ≠ lbl.id) → s.isTyping = true →
    (cs.foldl (fun s c => handleKeyDown (Key.char c) 0 s) s).textElements =
      pre ++ [{ lbl with content := ⟨lbl.content.data ++ cs⟩ }] ∧
    (cs.foldl (fun s c => handleKeyDown (Key.char c) 0 s) s).activeTextId = some lbl.id ∧
    (cs.foldl (fun s c => handleKeyDown (Key.char c) 0 s) s).isTyping = true := by
  induction cs with
  | nil =>
    intro s pre lbl hs hact hfresh htyp
    refine ⟨?_, hact, htyp⟩
    simpa using hs
  | cons c cs ih =>
    intro s pre lbl hs hact hfresh htyp
    rw [List.foldl_cons]
    have hidx : s.textElements.findIdx? (fun t => some t.id == s.activeTextId) =
        some pre.length := by
      rw [hs, hact]
      refine findIdx?_append_sing _ _ _ (fun t ht => ?_) (by simp)
      simpa using hfresh t ht
    have hstep : handleKeyDown (Key.char c) 0 s =
        { s with isTyping := true,
                 isDrawing := if s.isTyping = true then s.isDrawing else false,
                 textElements :=
                   pre ++ [{ lbl with content := lbl.content.push c }] } := by
      unfold handleKeyDown
      rw [hidx]
      dsimp only
      rw [hs, getD_append_len, set_append_len]
    have h1 : (handleKeyDown (Key.char c) 0 s).textElements =
        pre ++ [{ lbl with content := lbl.content.push c }] := by rw [hstep]
    have h2 : (handleKeyDown (Key.char c) 0 s).activeTextId =
        some ({ lbl with content := lbl.content.push c } : TextElement).id := by
      rw [hstep]
      simpa using hact
    have h3 : (handleKeyDown (Key.char c) 0 s).isTyping = true := by rw [hstep]
    have hrec := ih (handleKeyDown (Key.char c) 0 s) pre
      { lbl with content := lbl.content.push c } h1 h2
      (fun t ht => by simpa using hfresh t ht) h3
    refine ⟨?_, by simpa using hrec.2.1, hrec.2.2⟩
    rw [hrec.1]
    have hpush : (lbl.content.push c).data = lbl.content.data ++ [c] := rfl
    simp [hpush]

/-! ## Claims -/

/-- C4: a pointer release that happens while the state is neither Drawing nor
Typing, with the pen tool active and less than 200 ms after the press, appends
exactly one new empty `TextElement` at the release point, makes it the active
label, enters Typing, and adds no stroke. -/
theorem shortClick_creates_label (x y : ℤ) (now : Nat) (s : AppState)
    (hd : s.isDrawing = false) (ht : s.isTyping = false)
    (hfast : now - s.mouseDownTime < 200) (htool : s.activeTool = Tool.pen) :
    (handleMouseUp x y now s).textElements = s.textElements ++ [createdLabel now x y] ∧
    (handleMouseUp x y now s).activeTextId = some (toString now) ∧
    (handleMouseUp x y now s).isTyping = true ∧
    (handleMouseUp x y now s).drawingActions = s.drawingActions := by
  unfold handleMouseUp
  simp only [hd, ht, htool]
  simp [hfast]

/-- Witness for C4: a 100 ms click on the pen tool from the mount state. -/
theorem shortClick_creates_label_witness :
    (handleMouseUp 5 5 100 init).textElements = init.textElements ++ [createdLabel 100 5 5] ∧
    (handleMouseUp 5 5 100 init).activeTextId = some (toString 100) ∧
    (handleMouseUp 5 5 100 init).isTyping = true ∧
    (handleMouseUp 5 5 100 init).drawingActions = init.drawingActions :=
  shortClick_creates_label 5 5 100 init rfl rfl (by decide) rfl

/-- C10: when no label in the store matches the active text id (in particular
when none is active), `handleKeyDown` returns the state unchanged for every
key. -/
theorem keydown_without_active_label_noop (k : Key) (now : Nat) (s : AppState)
    (h : ∀ t ∈ s.textElements, some t.id ≠ s.activeTextId) :
    handleKeyDown k now s = s := by
  have hf : s.textElements.findIdx? (fun t => some t.id == s.activeTextId) = none := by
    refine findIdx?_none _ _ fun t ht => ?_
    simpa using h t ht
  simp [handleKeyDown, hf]

/-- Witness for C10: a printable character typed while Idle with a label in
the store but none active. -/
theorem keydown_without_active_label_noop_witness :
    handleKeyDown (Key.char 'a') 7
        { init with textElements := [⟨"42", "hello", 10, 10⟩] } =
      { init with textElements := [⟨"42", "hello", 10, 10⟩] } :=
  keydown_without_active_label_noop (Key.char 'a') 7
    { init with textElements := [⟨"42", "hello", 10, 10⟩] } (by decide)

/-- C9 (code bug evaluation): resizing with one committed stroke in the store.
The React state is preserved (only the canvas bounds change), but the redraw
issued by the resize listener goes through the mount-time closure, so it
clears the surface and repaints the mount snapshot (nothing) instead of the
stored stroke: the emitted command list is a bare `clearRect`, while a redraw
from the current stored state would include the stroke's segment. -/
theorem resize_redraws_mount_snapshot :
    (resizeListener (fun _ => 0) 0 800 600 init
        { init with drawingActions := [[⟨0, 0⟩, ⟨30, 0⟩]] }).1 =
      { init with drawingActions := [[⟨0, 0⟩, ⟨30, 0⟩]],
                  canvasWidth := 800, canvasHeight := 600 } ∧
    (resizeListener (fun _ => 0) 0 800 600 init
        { init with drawingActions := [[⟨0, 0⟩, ⟨30, 0⟩]] }).2 =
      [Cmd.clearRect 0 0 800 600] ∧
    redrawCanvas (fun _ => 0) 0
        { init with drawingActions := [[⟨0, 0⟩, ⟨30, 0⟩]],
                    canvasWidth := 800, canvasHeight := 600 } ≠
      [Cmd.clearRect 0 0 800 600] := by
  refine ⟨by decide, by decide, by decide⟩

/-- Counterexample to C1: draw and commit a two-point stroke, then erase one
of its endpoints.  The eraser's end-point removal has no minimum-length
check, so the committed store ends up holding a one-point stroke. -/
theorem counterexample_one_point_stroke_in_store :
    (run (fun _ => 0)
        [Event.mouseDown 0 0 0, Event.mouseMove 10 0, Event.mouseMove 20 0,
         Event.mouseUp 20 0 1000, Event.selectTool Tool.eraser,
         Event.mouseDown 0 0 2000]).drawingActions = [[⟨20, 0⟩]] ∧
    ((run (fun _ => 0)
        [Event.mouseDown 0 0 0, Event.mouseMove 10 0, Event.mouseMove 20 0,
         Event.mouseUp 20 0 1000, Event.selectTool Tool.eraser,
         Event.mouseDown 0 0 2000]).drawingActions.all
      (fun p => decide (2 ≤ p.length))) = false := by
  refine ⟨by decide, by decide⟩

/-- Counterexample to C8: a short click at t = 100 ms creates a label with id
`"100"`; pressing Enter within the same millisecond creates a second label
whose id is also `"100"` — ids are `Date.now().toString()` and are not
deduplicated. -/
theorem counterexample_duplicate_label_ids :
    ((run (fun _ => 0)
        [Event.mouseDown 50 50 0, Event.mouseUp 50 50 100,
         Event.keyDown Key.enter 100]).textElements.map
      (fun t => t.id)) = ["100", "100"] ∧
    ¬ ((run (fun _ => 0)
        [Event.mouseDown 50 50 0, Event.mouseUp 50 50 100,
         Event.keyDown Key.enter 100]).textElements.map
      (fun t => t.id)).Nodup := by
  refine ⟨by decide, by decide⟩

/-- Counterexample to C6: a short click creates an empty label `"50"`, then
Enter creates and activates a fresh label `"60"` without any emptiness check
on the label being left — the store retains an empty, inactive label. -/
theorem counterexample_empty_inactive_label :
    (run (fun _ => 0)
        [Event.mouseDown 10 10 0, Event.mouseUp 10 10 50,
         Event.keyDown Key.enter 60]).textElements =
      [⟨"50", "", 10, 10⟩, ⟨"60", "", 10, 34⟩] ∧
    (run (fun _ => 0)
        [Event.mouseDown 10 10 0, Event.mouseUp 10 10 50,
         Event.keyDown Key.enter 60]).activeTextId = some "60" ∧
    ((run (fun _ => 0)
        [Event.mouseDown 10 10 0, Event.mouseUp 10 10 50,
         Event.keyDown Key.enter 60]).textElements.all
      (fun t => (some t.id == some "60") || !(t.content == ""))) = false := by
  refine ⟨by decide, by decide, by decide⟩

/-- Counterexample to C7: a four-point stroke whose index-1 point alone lies
within the eraser radius.  The claim requires the length-1 prefix to be
dropped (leaving only the suffix), but the source keeps the prefix
unconditionally: the store ends up `[[P0], [P2, P3]]`, not `[[P2, P3]]`. -/
theorem counterexample_split_keeps_short_prefix :
    (applyEraser 30 0
        { init with drawingActions := [[⟨0, 0⟩, ⟨30, 0⟩, ⟨60, 0⟩, ⟨90, 0⟩]] }).drawingActions =
      [[⟨0, 0⟩], [⟨60, 0⟩, ⟨90, 0⟩]] ∧
    (applyEraser 30 0
        { init with drawingActions := [[⟨0, 0⟩, ⟨30, 0⟩, ⟨60, 0⟩, ⟨90, 0⟩]] }).drawingActions ≠
      [[⟨60, 0⟩, ⟨90, 0⟩]] := by
  refine ⟨by decide, by decide⟩

/-- C3: during a pen drag (`mouseIsDown`, pen tool, an initial click point on
record), a move event (1) leaves the machine out of Drawing and the
in-progress stroke untouched while the displacement from the initial click
stays within the 5 px threshold, (2) commits to Drawing at the first move
whose displacement exceeds it, (3) when that happens while Typing, first
finalizes the active label and restarts the stroke from the initial click
point, and (4) while Drawing appends the current point to the in-progress
stroke on every move. -/
theorem dragThreshold_transition (x y : ℤ) (s : AppState) (p0 : Point)
    (hm : s.mouseIsDown = true) (htool : s.activeTool = Tool.pen)
    (hp : s.initialClickPos = some p0) :
    (crossedThreshold p0 x y = false → s.isDrawing = false →
      (handleMouseMove x y s).isDrawing = false ∧
      (handleMouseMove x y s).currentPath = s.currentPath ∧
      (handleMouseMove x y s).drawingActions = s.drawingActions) ∧
    (crossedThreshold p0 x y = true → s.isDrawing = false → s.isTyping = false →
      (handleMouseMove x y s).isDrawing = true) ∧
    (crossedThreshold p0 x y = true → s.isDrawing = false → s.isTyping = true →
      (handleMouseMove x y s).isDrawing = true ∧
      (handleMouseMove x y s).isTyping = false ∧
      (handleMouseMove x y s).activeTextId = none ∧
      (handleMouseMove x y s).textElements = (finalizeCurrentText s).textElements ∧
      (handleMouseMove x y s).currentPath = [p0, ⟨x, y⟩]) ∧
    (s.isDrawing = true → s.isTyping = false →
      (handleMouseMove x y s).currentPath = s.currentPath ++ [⟨x, y⟩]) := by
  unfold handleMouseMove
  simp only [hm, htool, hp]
  refine ⟨?_, ?_, ?_, ?_⟩
  · intro hc hd
    simp [hc, hd]
  · intro hc hd ht
    simp [hc, hd, ht]
  · intro hc hd ht
    simp [hc, hd, ht, finalizeCurrentText]
  · intro hd ht
    cases hc : crossedThreshold p0 x y with
    | false => simp [hc, hd]
    | true => simp [hc, hd, ht]

/-- Witness for C3: from a pressed pen state with initial click (0,0), the
move to (10,0) exceeds the threshold and commits to Drawing; and from a
Drawing state the same move appends (10,0). -/
theorem dragThreshold_transition_witness :
    (handleMouseMove 10 0
        { init with mouseIsDown := true, initialClickPos := some ⟨0, 0⟩ }).isDrawing = true ∧
    (handleMouseMove 10 0
        { init with mouseIsDown := true, initialClickPos := some ⟨0, 0⟩,
                    isDrawing := true, currentPath := [⟨0, 0⟩] }).currentPath =
      [⟨0, 0⟩] ++ [⟨10, 0⟩] :=
  ⟨(dragThreshold_transition 10 0
      { init with mouseIsDown := true, initialClickPos := some ⟨0, 0⟩ } ⟨0, 0⟩
      rfl rfl rfl).2.1 (by decide) rfl rfl,
   (dragThreshold_transition 10 0
      { init with mouseIsDown := true, initialClickPos := some ⟨0, 0⟩,
                  isDrawing := true, currentPath := [⟨0, 0⟩] } ⟨0, 0⟩
      rfl rfl rfl).2.2.2 rfl rfl⟩

/-- C6 (amended): when editing ends through `finalizeCurrentText` — the
Escape key, the drag-to-draw transition, or the inactivity timeout — the
label being edited is destroyed exactly when its content is empty, other
labels persist, and no label remains active.  (As stated the claim is false:
the Enter key and clicking on or away from a label while typing end the
previous label's editing without this emptiness check, see the
counterexample.) -/
theorem finalize_destroys_empty_label (s : AppState) (aid : String) (lbl : TextElement)
    (htyp : s.isTyping = true) (hact : s.activeTextId = some aid)
    (hfind : s.textElements.find? (fun t => some t.id == s.activeTextId) = some lbl) :
    (finalizeCurrentText s).isTyping = false ∧
    (finalizeCurrentText s).activeTextId = none ∧
    (lbl.content = "" → ∀ t ∈ (finalizeCurrentText s).textElements, t.id ≠ aid) ∧
    (lbl.content ≠ "" → (finalizeCurrentText s).textElements = s.textElements) ∧
    (∀ t ∈ s.textElements, t.id ≠ aid → t ∈ (finalizeCurrentText s).textElements) := by
  unfold finalizeCurrentText
  simp only [htyp, hfind]
  refine ⟨by simp, by simp, ?_, ?_, ?_⟩
  · intro hemp t ht
    have ht' : t ∈ s.textElements ∧ ¬ some t.id = s.activeTextId := by
      simpa [hemp] using ht
    simpa [hact] using ht'.2
  · intro hne
    have hlen : lbl.content.length ≠ 0 := fun h => hne (str_len_zero _ h)
    simp [if_neg hlen]
  · intro t ht hid
    by_cases hlen : lbl.content.length = 0
    · have hmem : t ∈ s.textElements.filter (fun t => !(some t.id == s.activeTextId)) :=
        List.mem_filter.mpr ⟨ht, by simp [hact, hid]⟩
      simpa [hlen] using hmem
    · simpa [if_neg hlen] using ht

/-- Witness for C6's amended theorem: Escape on a freshly created empty label
leaves typing mode with no active label. -/
theorem finalize_destroys_empty_label_witness :
    (finalizeCurrentText
        { init with textElements := [⟨"9", "", 1, 1⟩],
                    activeTextId := some "9", isTyping := true }).isTyping = false ∧
    (finalizeCurrentText
        { init with textElements := [⟨"9", "", 1, 1⟩],
                    activeTextId := some "9", isTyping := true }).activeTextId = none :=
  ⟨(finalize_destroys_empty_label _ "9" ⟨"9", "", 1, 1⟩ rfl rfl (by decide)).1,
   (finalize_destroys_empty_label _ "9" ⟨"9", "", 1, 1⟩ rfl rfl (by decide)).2.1⟩

/-- C7 (amended): when one eraser application hits exactly one stored point —
the interior point `k` of the stroke at index `ai` — that stroke is replaced
in place by its prefix of length `k` (kept unconditionally, even when shorter
than 2 points), the suffix of length `len − (k+1)` is appended at the end of
the store only when it has at least 2 points, and no other stroke is
affected.  The hit point (index `k`) belongs to neither part.  (As stated the
claim is false: it requires the prefix, too, to be dropped when shorter than
2 points, see the counterexample.) -/
theorem eraser_single_interior_split (ex ey : ℤ) (s : AppState) (ai k : Nat)
    (path : List Point)
    (hpath : s.drawingActions.getD ai [] = path)
    (hint : checkEraserIntersection ex ey s = [(ai, [k])])
    (hk0 : 0 < k) (hklen : k + 1 < path.length) :
    (applyEraser ex ey s).drawingActions =
      (s.drawingActions.set ai (path.take k)) ++
        (if 2 ≤ path.length - (k + 1) then [path.drop (k + 1)] else []) ∧
    (path.take k).length = k ∧
    (path.drop (k + 1)).length = path.length - (k + 1) ∧
    (∀ j, j ≠ ai → j < s.drawingActions.length →
      ((applyEraser ex ey s).drawingActions.getD j [] = s.drawingActions.getD j [])) := by
  have hres : (applyEraser ex ey s).drawingActions =
      (s.drawingActions.set ai (path.take k)) ++
        (if 2 ≤ path.length - (k + 1) then [path.drop (k + 1)] else []) := by
    unfold applyEraser
    rw [hint]
    simp only [List.isEmpty_cons, Bool.false_eq_true, if_false, List.reverse_cons,
      List.reverse_nil, List.nil_append, List.foldl_cons, List.foldl_nil]
    unfold eraseOne
    dsimp only
    rw [hpath]
    have h1 : ¬ (([k] : List Nat).length = path.length) := by
      simp only [List.length_cons, List.length_nil]
      omega
    rw [if_neg h1, if_pos (by simp : ([k] : List Nat).length = 1)]
    have h2 : ¬ (([k] : List Nat).headD 0 = 0 ∨
        ([k] : List Nat).headD 0 = path.length - 1) := by
      simp only [List.headD_cons]
      omega
    rw [if_neg h2]
    simp only [List.headD_cons, List.length_drop]
  refine ⟨hres, List.length_take_of_le (by omega), List.length_drop _ _, ?_⟩
  intro j hj hjlen
  rw [hres]
  have hjlen' : j < (s.drawingActions.set ai (path.take k)).length := by
    simpa using hjlen
  rw [List.getD_eq_getElem?_getD, List.getElem?_append_left hjlen',
    List.getElem?_set_ne (fun h => hj h.symm), ← List.getD_eq_getElem?_getD]

/-- Witness for C7's amended theorem: a five-point stroke erased exactly at
its middle point splits into the two-point prefix and the two-point suffix. -/
theorem eraser_single_interior_split_witness :
    (applyEraser 60 0
        { init with drawingActions :=
            [[⟨0, 0⟩, ⟨30, 0⟩, ⟨60, 0⟩, ⟨90, 0⟩, ⟨120, 0⟩]] }).drawingActions =
      ({ init with drawingActions :=
            [[⟨0, 0⟩, ⟨30, 0⟩, ⟨60, 0⟩, ⟨90, 0⟩, ⟨120, 0⟩]] } :
          AppState).drawingActions.set 0
          (([⟨0, 0⟩, ⟨30, 0⟩, ⟨60, 0⟩, ⟨90, 0⟩, ⟨120, 0⟩] : List Point).take 2) ++
        (if 2 ≤ ([⟨0, 0⟩, ⟨30, 0⟩, ⟨60, 0⟩, ⟨90, 0⟩, ⟨120, 0⟩] : List Point).length - (2 + 1)
         then [([⟨0, 0⟩, ⟨30, 0⟩, ⟨60, 0⟩, ⟨90, 0⟩, ⟨120, 0⟩] : List Point).drop (2 + 1)]
         else []) :=
  (eraser_single_interior_split 60 0
    { init with drawingActions := [[⟨0, 0⟩, ⟨30, 0⟩, ⟨60, 0⟩, ⟨90, 0⟩, ⟨120, 0⟩]] }
    0 2 [⟨0, 0⟩, ⟨30, 0⟩, ⟨60, 0⟩, ⟨90, 0⟩, ⟨120, 0⟩]
    rfl (by decide) (by decide) (by decide)).1

/-- C5: starting from a freshly created empty active label (the last label of
the store, its id fresh), typing N printable characters and pressing Escape
leaves that label with content equal to the concatenation of those characters
in order (exactly one label when the store held nothing else), with no label
active and typing mode off; when N = 0 the label is removed instead. -/
theorem typing_then_escape (s : AppState) (pre : List TextElement) (lbl : TextElement)
    (hs : s.textElements = pre ++ [lbl]) (hact : s.activeTextId = some lbl.id)
    (hfresh : ∀ t ∈ pre, t.id ≠ lbl.id) (htyp : s.isTyping = true)
    (hempty : lbl.content = "") (cs : List Char) :
    (handleKeyDown Key.escape 0
        (cs.foldl (fun s c => handleKeyDown (Key.char c) 0 s) s)).textElements =
      (if cs = [] then pre else pre ++ [{ lbl with content := ⟨cs⟩ }]) ∧
    (handleKeyDown Key.escape 0
        (cs.foldl (fun s c => handleKeyDown (Key.char c) 0 s) s)).activeTextId = none ∧
    (handleKeyDown Key.escape 0
        (cs.foldl (fun s c => handleKeyDown (Key.char c) 0 s) s)).isTyping = false := by
  obtain ⟨hte, hta, hty⟩ := type_chars_fold cs s pre lbl hs hact hfresh htyp
  generalize hg : cs.foldl (fun s c => handleKeyDown (Key.char c) 0 s) s = r at hte hta hty ⊢
  have hdata : lbl.content.data = ([] : List Char) := by
    rw [hempty]
  rw [hdata, List.nil_append] at hte
  have hidx : r.textElements.findIdx? (fun t => some t.id == r.activeTextId) =
      some pre.length := by
    rw [hte, hta]
    refine findIdx?_append_sing _ _ _ (fun t ht => ?_) (by simp)
    simpa using hfresh t ht
  have hfind : r.textElements.find? (fun t => some t.id == r.activeTextId) =
      some { lbl with content := ⟨cs⟩ } := by
    rw [hte, hta]
    refine find?_append_sing _ _ _ (fun t ht => ?_) (by simp)
    simpa using hfresh t ht
  unfold handleKeyDown
  rw [hidx]
  dsimp only
  unfold finalizeCurrentText
  rw [hty]
  simp only [Bool.true_eq_false, if_false, hfind]
  refine ⟨?_, by trivial, by trivial⟩
  by_cases hcs : cs = []
  · subst hcs
    have hlen0 : ({ lbl with content := (⟨([] : List Char)⟩ : String) } :
        TextElement).content.length = 0 := rfl
    rw [if_pos hlen0, hte, hta, List.filter_append]
    have hpre : pre.filter (fun t => !(some t.id == some lbl.id)) = pre :=
      List.filter_eq_self.mpr fun t ht => by simpa using hfresh t ht
    have hlast : ([{ lbl with content := (⟨([] : List Char)⟩ : String) }] :
        List TextElement).filter (fun t => !(some t.id == some lbl.id)) = [] := by
      simp
    rw [hpre, hlast, List.append_nil]
    simp
  · have hlen : ({ lbl with content := (⟨cs⟩ : String) } :
        TextElement).content.length ≠ 0 := fun h => hcs (List.length_eq_zero.mp h)
    rw [if_neg hlen, if_neg hcs, hte]

/-- Witness for C5: typing "hi" into a fresh empty label and pressing Escape
leaves exactly that one label with content "hi". -/
theorem typing_then_escape_witness :
    (handleKeyDown Key.escape 0
        ((['h', 'i'] : List Char).foldl (fun s c => handleKeyDown (Key.char c) 0 s)
          { init with textElements := [⟨"100", "", 5, 5⟩],
                      activeTextId := some "100", isTyping := true })).textElements =
      (if (['h', 'i'] : List Char) = [] then ([] : List TextElement)
       else [] ++ [{ (⟨"100", "", 5, 5⟩ : TextElement) with content := ⟨['h', 'i']⟩ }]) ∧
    (handleKeyDown Key.escape 0
        ((['h', 'i'] : List Char).foldl (fun s c => handleKeyDown (Key.char c) 0 s)
          { init with textElements := [⟨"100", "", 5, 5⟩],
                      activeTextId := some "100", isTyping := true })).activeTextId = none ∧
    (handleKeyDown Key.escape 0
        ((['h', 'i'] : List Char).foldl (fun s c => handleKeyDown (Key.char c) 0 s)
          { init with textElements := [⟨"100", "", 5, 5⟩],
                      activeTextId := some "100", isTyping := true })).isTyping = false :=
  typing_then_escape
    { init with textElements := [⟨"100", "", 5, 5⟩],
                activeTextId := some "100", isTyping := true }
    [] ⟨"100", "", 5, 5⟩ rfl rfl (by simp) rfl rfl ['h', 'i']


lemma finalize_tool (s : AppState) :
    (finalizeCurrentText s).activeTool = s.activeTool := by
  unfold finalizeCurrentText
  repeat' first | rfl | split

lemma handleMouseDown_tool (m : String → ℤ) (x y : ℤ) (now : Nat) (s : AppState) :
    (handleMouseDown m x y now s).activeTool = s.activeTool := by
  unfold handleMouseDown applyEraser
  repeat' first | rfl | split | dsimp only

lemma handleMouseMove_tool (x y : ℤ) (s : AppState) :
    (handleMouseMove x y s).activeTool = s.activeTool := by
  unfold handleMouseMove applyEraser
  repeat' first | rfl | split | dsimp only
  all_goals exact finalize_tool s

lemma handleMouseUp_tool (x y : ℤ) (now : Nat) (s : AppState) :
    (handleMouseUp x y now s).activeTool = s.activeTool := by
  unfold handleMouseUp
  repeat' first | rfl | split

lemma handleMouseLeave_tool (s : AppState) :
    (handleMouseLeave s).activeTool = s.activeTool := by
  unfold handleMouseLeave
  repeat' first | rfl | split

lemma handleKeyDown_tool (k : Key) (now : Nat) (s : AppState) :
    (handleKeyDown k now s).activeTool = s.activeTool := by
  unfold handleKeyDown
  repeat' first | rfl | split | dsimp only
  all_goals exact finalize_tool s

lemma step_tool (m : String → ℤ) (e : Event) (s : AppState)
    (he : e ≠ Event.selectTool Tool.eraser) (h : s.activeTool = Tool.pen) :
    (step m s e).activeTool = Tool.pen := by
  cases e with
  | mouseDown x y now => rw [step, handleMouseDown_tool]; exact h
  | mouseMove x y => rw [step, handleMouseMove_tool]; exact h
  | mouseUp x y now => rw [step, handleMouseUp_tool]; exact h
  | mouseLeave => rw [step, handleMouseLeave_tool]; exact h
  | keyDown k now => rw [step, handleKeyDown_tool]; exact h
  | inactivity =>
    rw [step]
    split
    · rw [finalize_tool]; exact h
    · exact h
  | selectTool t =>
    cases t with
    | pen => rfl
    | eraser => exact absurd rfl he
  | resize w h' => exact h

lemma finalize_actions (s : AppState) :
    (finalizeCurrentText s).drawingActions = s.drawingActions := by
  unfold finalizeCurrentText
  repeat' first | rfl | split

lemma handleMouseDown_actions (m : String → ℤ) (x y : ℤ) (now : Nat) (s : AppState)
    (h : s.activeTool = Tool.pen) :
    (handleMouseDown m x y now s).drawingActions = s.drawingActions := by
  unfold handleMouseDown
  rw [if_neg (by rw [h]; intro hc; cases hc)]
  repeat' first | rfl | split

lemma handleMouseMove_actions (x y : ℤ) (s : AppState)
    (h : s.activeTool = Tool.pen) :
    (handleMouseMove x y s).drawingActions = s.drawingActions := by
  unfold handleMouseMove
  by_cases hm : s.mouseIsDown = false
  · rw [if_pos hm]
  · rw [if_neg hm, if_neg (by rw [h]; intro hc; cases hc)]
    repeat' first | rfl | split | dsimp only
    all_goals exact finalize_actions s

lemma handleKeyDown_actions (k : Key) (now : Nat) (s : AppState) :
    (handleKeyDown k now s).drawingActions = s.drawingActions := by
  unfold handleKeyDown
  repeat' first | rfl | split | dsimp only
  all_goals exact finalize_actions s

lemma handleMouseUp_actions (x y : ℤ) (now : Nat) (s : AppState) :
    (handleMouseUp x y now s).drawingActions = s.drawingActions ∨
    (1 < s.currentPath.length ∧
      (handleMouseUp x y now s).drawingActions = s.drawingActions ++ [s.currentPath]) := by
  unfold handleMouseUp
  dsimp only
  by_cases hc : s.isDrawing = true ∧ 1 < s.currentPath.length
  · refine Or.inr ⟨hc.2, ?_⟩
    rw [if_pos hc]
    split <;> rfl
  · refine Or.inl ?_
    rw [if_neg hc]
    split <;> rfl

lemma handleMouseLeave_actions (s : AppState) :
    (handleMouseLeave s).drawingActions = s.drawingActions ∨
    (1 < s.currentPath.length ∧
      (handleMouseLeave s).drawingActions = s.drawingActions ++ [s.currentPath]) := by
  unfold handleMouseLeave
  dsimp only
  by_cases hc : s.isDrawing = true ∧ 1 < s.currentPath.length
  · exact Or.inr ⟨hc.2, by rw [if_pos hc]⟩
  · exact Or.inl (by rw [if_neg hc])

lemma step_min2 (m : String → ℤ) (e : Event) (s : AppState)
    (htool : s.activeTool = Tool.pen)
    (hinv : ∀ p ∈ s.drawingActions, 2 ≤ p.length) :
    ∀ p ∈ (step m s e).drawingActions, 2 ≤ p.length := by
  cases e with
  | mouseDown x y now => rw [step, handleMouseDown_actions _ _ _ _ _ htool]; exact hinv
  | mouseMove x y => rw [step, handleMouseMove_actions _ _ _ htool]; exact hinv
  | mouseUp x y now =>
    rcases handleMouseUp_actions x y now s with hu | ⟨hlen, hu⟩
    · rw [step, hu]; exact hinv
    · rw [step, hu]
      intro p hp
      rcases List.mem_append.mp hp with h1 | h1
      · exact hinv p h1
      · rw [List.mem_singleton.mp h1]; omega
  | mouseLeave =>
    rcases handleMouseLeave_actions s with hu | ⟨hlen, hu⟩
    · rw [step, hu]; exact hinv
    · rw [step, hu]
      intro p hp
      rcases List.mem_append.mp hp with h1 | h1
      · exact hinv p h1
      · rw [List.mem_singleton.mp h1]; omega
  | keyDown k now => rw [step, handleKeyDown_actions]; exact hinv
  | inactivity =>
    rw [step]
    split
    · rw [finalize_actions]; exact hinv
    · exact hinv
  | selectTool t => exact hinv
  | resize w h' => exact hinv

/-- C1 (amended): every stroke is committed to the store (on pointer-up or
pointer-leave) only when the in-progress path has at least 2 points, so in
every state reachable from mount without ever selecting the eraser tool,
every stroke in the committed store has at least 2 points.  (As stated over
all reachable states the claim is false: the eraser's end-point removal and
split-prefix paths have no minimum-length check, see the counterexample.) -/
theorem strokes_have_min_two_points (m : String → ℤ) (trace : List Event)
    (h : Event.selectTool Tool.eraser ∉ trace) :
    ∀ p ∈ (run m trace).drawingActions, 2 ≤ p.length := by
  suffices H : ∀ (tr : List Event) (s : AppState), Event.selectTool Tool.eraser ∉ tr →
      s.activeTool = Tool.pen → (∀ p ∈ s.drawingActions, 2 ≤ p.length) →
      ∀ p ∈ (tr.foldl (step m) s).drawingActions, 2 ≤ p.length by
    exact H trace init h rfl (by intro p hp; cases hp)
  intro tr
  induction tr with
  | nil => intro s _ _ hinv; exact hinv
  | cons e tr ih =>
    intro s hmem htool hinv
    rw [List.foldl_cons]
    exact ih (step m s e) (fun hc => hmem (List.mem_cons_of_mem e hc))
      (step_tool m e s (fun hc => hmem (hc ▸ List.mem_cons_self e tr)) htool)
      (step_min2 m e s htool hinv)


/-- Witness for C1's amended theorem: a drag of two recorded points committed
by pointer-up, in a trace that never selects the eraser. -/
theorem strokes_have_min_two_points_witness :
    (Event.selectTool Tool.eraser ∉
      ([Event.mouseDown 0 0 0, Event.mouseMove 10 0, Event.mouseMove 20 0,
        Event.mouseUp 20 0 1000] : List Event)) ∧
    ∀ p ∈ (run (fun _ => 0) [Event.mouseDown 0 0 0, Event.mouseMove 10 0,
        Event.mouseMove 20 0, Event.mouseUp 20 0 1000]).drawingActions, 2 ≤ p.length :=
  ⟨by decide, strokes_have_min_two_points (fun _ => 0) _ (by decide)⟩


lemma ids_set (l : List TextElement) (i : Nat) (c : String) (hi : i < l.length) :
    (l.set i { l.getD i noText with content := c }).map (fun t => t.id) =
      l.map (fun t => t.id) := by
  induction l generalizing i with
  | nil => cases hi
  | cons a l ih =>
    cases i with
    | zero => rfl
    | succ i =>
      have hi' : i < l.length := by simpa using hi
      simp only [List.set_cons_succ, List.getD_cons_succ, List.map_cons]
      rw [ih i hi']

lemma finalize_ids (s : AppState) :
    List.Sublist ((finalizeCurrentText s).textElements.map (fun t => t.id))
      (s.textElements.map (fun t => t.id)) := by
  unfold finalizeCurrentText
  repeat' split
  · exact List.Sublist.refl _
  · exact (List.filter_sublist _).map _
  · exact List.Sublist.refl _
  · exact List.Sublist.refl _

lemma handleMouseDown_ids (m : String → ℤ) (x y : ℤ) (now : Nat) (s : AppState) :
    (handleMouseDown m x y now s).textElements.map (fun t => t.id) =
        s.textElements.map (fun t => t.id) ∨
    (handleMouseDown m x y now s).textElements.map (fun t => t.id) =
        s.textElements.map (fun t => t.id) ++ [toString now] := by
  unfold handleMouseDown applyEraser
  repeat' first | (exact Or.inl rfl) | split | dsimp only
  exact Or.inr (by simp [createdLabel])

lemma handleMouseMove_ids (x y : ℤ) (s : AppState) :
    List.Sublist ((handleMouseMove x y s).textElements.map (fun t => t.id))
      (s.textElements.map (fun t => t.id)) := by
  unfold handleMouseMove applyEraser
  repeat' first | (exact List.Sublist.refl _) | split | dsimp only
  all_goals exact finalize_ids s

lemma handleMouseUp_ids (x y : ℤ) (now : Nat) (s : AppState) :
    (handleMouseUp x y now s).textElements.map (fun t => t.id) =
        s.textElements.map (fun t => t.id) ∨
    (handleMouseUp x y now s).textElements.map (fun t => t.id) =
        s.textElements.map (fun t => t.id) ++ [toString now] := by
  unfold handleMouseUp
  dsimp only
  repeat' first | (exact Or.inl rfl) | split
  · exact Or.inr (by simp [createdLabel])
  · exact Or.inr (by simp [createdLabel])

lemma handleMouseLeave_ids (s : AppState) :
    (handleMouseLeave s).textElements.map (fun t => t.id) =
      s.textElements.map (fun t => t.id) := by
  unfold handleMouseLeave
  repeat' first | rfl | split

lemma handleKeyDown_ids (k : Key) (now : Nat) (s : AppState) :
    List.Sublist ((handleKeyDown k now s).textElements.map (fun t => t.id))
        (s.textElements.map (fun t => t.id)) ∨
    (handleKeyDown k now s).textElements.map (fun t => t.id) =
        s.textElements.map (fun t => t.id) ++ [toString now] := by
  unfold handleKeyDown
  cases hidx : s.textElements.findIdx? (fun t => some t.id == s.activeTextId) with
  | none => exact Or.inl (List.Sublist.refl _)
  | some i =>
    have hi : i < s.textElements.length :=
      (List.findIdx?_eq_some_iff_findIdx_eq.mp hidx).1
    cases k with
    | char c =>
      dsimp only
      refine Or.inl ?_
      rw [ids_set _ _ _ hi]
    | backspace =>
      dsimp only
      split
      · refine Or.inl ?_
        rw [ids_set _ _ _ hi]
      · exact Or.inl (List.Sublist.refl _)
    | enter =>
      dsimp only
      exact Or.inr (by simp)
    | escape => exact Or.inl (finalize_ids s)
    | other name => exact Or.inl (List.Sublist.refl _)

lemma step_ids (m : String → ℤ) (e : Event) (s : AppState) :
    List.Sublist ((step m s e).textElements.map (fun t => t.id))
        (s.textElements.map (fun t => t.id)) ∨
    (∃ τ, eventTime e = some τ ∧
      (step m s e).textElements.map (fun t => t.id) =
        s.textElements.map (fun t => t.id) ++ [toString τ]) := by
  cases e with
  | mouseDown x y now =>
    rcases handleMouseDown_ids m x y now s with h | h
    · exact Or.inl (h ▸ List.Sublist.refl _)
    · exact Or.inr ⟨now, rfl, h⟩
  | mouseMove x y => exact Or.inl (handleMouseMove_ids x y s)
  | mouseUp x y now =>
    rcases handleMouseUp_ids x y now s with h | h
    · exact Or.inl (h ▸ List.Sublist.refl _)
    · exact Or.inr ⟨now, rfl, h⟩
  | mouseLeave => exact Or.inl ((handleMouseLeave_ids s) ▸ List.Sublist.refl _)
  | keyDown k now =>
    rcases handleKeyDown_ids k now s with h | h
    · exact Or.inl h
    · exact Or.inr ⟨now, rfl, h⟩
  | inactivity =>
    rw [step]
    split
    · exact Or.inl (finalize_ids s)
    · exact Or.inl (List.Sublist.refl _)
  | selectTool t => exact Or.inl (List.Sublist.refl _)
  | resize w h => exact Or.inl (List.Sublist.refl _)

/-- C8 (amended): label ids equal the decimal string of the creating event's
`Date.now()` reading, so in every state reachable by a trace whose
clock-reading events carry pairwise-distinct timestamps, no two labels in the
Text Store share an id.  (As stated over all reachable states the claim is
false: two labels created within the same millisecond share an id, see the
counterexample.) -/
theorem label_ids_unique (m : String → ℤ) (trace : List Event)
    (h : ((trace.filterMap eventTime).map (fun τ => toString τ)).Nodup) :
    ((run m trace).textElements.map (fun t => t.id)).Nodup := by
  suffices H : ∀ (tr : List Event) (s : AppState),
      (∀ a ∈ s.textElements.map (fun t => t.id),
        a ∉ (tr.filterMap eventTime).map (fun τ => toString τ)) →
      (s.textElements.map (fun t => t.id)).Nodup →
      ((tr.filterMap eventTime).map (fun τ => toString τ)).Nodup →
      ((tr.foldl (step m) s).textElements.map (fun t => t.id)).Nodup by
    exact H trace init (by intro a ha; cases ha) (by constructor) h
  intro tr
  induction tr with
  | nil => intro s _ hnd _; exact hnd
  | cons e tr ih =>
    intro s hdisj hnd hts
    rw [List.foldl_cons]
    have hmono : ∀ a, a ∈ (tr.filterMap eventTime).map (fun τ => toString τ) →
        a ∈ ((e :: tr).filterMap eventTime).map (fun τ => toString τ) := by
      intro a hmem
      rw [List.filterMap_cons]
      cases eventTime e with
      | none => exact hmem
      | some τ => exact List.mem_cons_of_mem _ hmem
    have htail : ((tr.filterMap eventTime).map (fun τ => toString τ)).Nodup := by
      rw [List.filterMap_cons] at hts
      rcases hev : eventTime e with _ | τ
      · rw [hev] at hts
        exact hts
      · rw [hev] at hts
        exact (List.nodup_cons.mp (by simpa using hts)).2
    rcases step_ids m e s with hsub | ⟨τ, hτ, heq⟩
    · refine ih (step m s e) ?_ (hnd.sublist hsub) htail
      intro a ha hmem
      exact hdisj a (hsub.subset ha) (hmono a hmem)
    · rw [List.filterMap_cons, hτ] at hts hdisj
      simp only [List.map_cons] at hts hdisj
      have hts' := List.nodup_cons.mp hts
      refine ih (step m s e) ?_ ?_ hts'.2
      · intro a ha hmem
        rw [heq] at ha
        rcases List.mem_append.mp ha with h1 | h1
        · exact hdisj a h1 (List.mem_cons_of_mem _ hmem)
        · rw [List.mem_singleton.mp h1] at hmem
          exact hts'.1 hmem
      · rw [heq, List.nodup_append]
        refine ⟨hnd, List.nodup_singleton _, ?_⟩
        intro a ha hb
        have hab : a = toString τ := by simpa using hb
        subst hab
        exact hdisj _ ha (List.mem_cons_self _ _)


/-- Witness for C8's amended theorem: a short click at t = 50 ms and an Enter
press at t = 60 ms create two labels with distinct ids. -/
theorem label_ids_unique_witness :
    ((([Event.mouseDown 10 10 0, Event.mouseUp 10 10 50,
        Event.keyDown Key.enter 60] : List Event).filterMap eventTime).map
      (fun τ => toString τ)).Nodup ∧
    ((run (fun _ => 0) [Event.mouseDown 10 10 0, Event.mouseUp 10 10 50,
        Event.keyDown Key.enter 60]).textElements.map (fun t => t.id)).Nodup :=
  ⟨by decide, label_ids_unique (fun _ => 0) _ (by decide)⟩


/-- C2: for a stroke with points P0..Pn (n ≥ 1) the renderer draws from P0;
each interior point Pi (1 ≤ i ≤ n−2, here i = j+1) is the quadratic control
point with the midpoint of Pi and Pi+1 as segment endpoint; the final segment
(n ≥ 2, n = m+2) uses the second-to-last point as control and the last point
as endpoint, and the command list ends there; a 2-point stroke (n = 1) is a
plain straight segment. -/
theorem drawPath_spec (ps : List Point) (n : Nat) (hn : ps.length = n + 1) (h1 : 1 ≤ n) :
    (drawPath ps).head? =
      some (Cmd.moveTo ((ps.getD 0 pt0).x : ℚ) ((ps.getD 0 pt0).y : ℚ)) ∧
    (∀ j, j + 3 ≤ n →
      (drawPath ps)[j + 1]? =
        some (Cmd.quadTo ((ps.getD (j + 1) pt0).x : ℚ) ((ps.getD (j + 1) pt0).y : ℚ)
          ((((ps.getD (j + 1) pt0).x + (ps.getD (j + 2) pt0).x : ℤ) : ℚ) / 2)
          ((((ps.getD (j + 1) pt0).y + (ps.getD (j + 2) pt0).y : ℤ) : ℚ) / 2))) ∧
    (∀ m, n = m + 2 →
      (drawPath ps)[m + 1]? =
        some (Cmd.quadTo ((ps.getD (m + 1) pt0).x : ℚ) ((ps.getD (m + 1) pt0).y : ℚ)
          ((ps.getD (m + 2) pt0).x : ℚ) ((ps.getD (m + 2) pt0).y : ℚ)) ∧
      (drawPath ps).length = m + 2) ∧
    (n = 1 → drawPath ps =
      [Cmd.moveTo ((ps.getD 0 pt0).x : ℚ) ((ps.getD 0 pt0).y : ℚ),
       Cmd.lineTo ((ps.getD 1 pt0).x : ℚ) ((ps.getD 1 pt0).y : ℚ)]) := by
  have hcond : ¬ (ps.length < 2) := by omega
  refine ⟨?_, ?_, ?_, ?_⟩
  · unfold drawPath
    rw [if_neg hcond]
    rfl
  · intro j hj
    unfold drawPath
    rw [if_neg hcond]
    rw [List.getElem?_cons_succ,
      List.getElem?_append_left (by
        simp only [List.length_map, List.length_drop, List.length_range]
        omega),
      List.getElem?_map, List.getElem?_drop,
      List.getElem?_range (by omega : 1 + j < ps.length - 2)]
    have hc : 1 + j = j + 1 := Nat.add_comm 1 j
    rw [hc]
    rfl
  · intro m hm
    constructor
    · unfold drawPath
      rw [if_neg hcond]
      rw [List.getElem?_cons_succ, List.getElem?_append_right]
      · have hql : (((List.range (ps.length - 2)).drop 1).map (fun i =>
            Cmd.quadTo ((ps.getD i pt0).x : ℚ) ((ps.getD i pt0).y : ℚ)
              ((((ps.getD i pt0).x + (ps.getD (i + 1) pt0).x : ℤ) : ℚ) / 2)
              ((((ps.getD i pt0).y + (ps.getD (i + 1) pt0).y : ℤ) : ℚ) / 2))).length = m := by
          simp only [List.length_map, List.length_drop, List.length_range]
          omega
        rw [hql]
        have h2lt : 2 < ps.length := by omega
        rw [if_pos h2lt]
        have e1 : ps.length - 2 = m + 1 := by omega
        have e2 : ps.length - 1 = m + 2 := by omega
        rw [e1, e2]
        simp
      · simp only [List.length_map, List.length_drop, List.length_range]
        omega
    · unfold drawPath
      rw [if_neg hcond]
      have h2lt : 2 < ps.length := by omega
      rw [if_pos h2lt]
      simp only [List.length_cons, List.length_append, List.length_map, List.length_drop,
        List.length_range, List.length_nil]
      omega
  · intro hn1
    subst hn1
    have hl : ps.length = 2 := hn
    unfold drawPath
    rw [if_neg hcond, hl]
    rfl

/-- Witness for C2: the four-point stroke (0,0),(2,2),(4,0),(6,2) and the
two-point stroke (0,0),(7,5). -/
theorem drawPath_spec_witness :
    (drawPath ([⟨0, 0⟩, ⟨2, 2⟩, ⟨4, 0⟩, ⟨6, 2⟩] : List Point)).head? =
      some (Cmd.moveTo ((0 : ℤ) : ℚ) ((0 : ℤ) : ℚ)) ∧
    (drawPath ([⟨0, 0⟩, ⟨2, 2⟩, ⟨4, 0⟩, ⟨6, 2⟩] : List Point))[1]? =
      some (Cmd.quadTo ((2 : ℤ) : ℚ) ((2 : ℤ) : ℚ)
        (((2 + 4 : ℤ) : ℚ) / 2) (((2 + 0 : ℤ) : ℚ) / 2)) ∧
    (drawPath ([⟨0, 0⟩, ⟨2, 2⟩, ⟨4, 0⟩, ⟨6, 2⟩] : List Point))[2]? =
      some (Cmd.quadTo ((4 : ℤ) : ℚ) ((0 : ℤ) : ℚ) ((6 : ℤ) : ℚ) ((2 : ℤ) : ℚ)) ∧
    (drawPath ([⟨0, 0⟩, ⟨2, 2⟩, ⟨4, 0⟩, ⟨6, 2⟩] : List Point)).length = 3 ∧
    drawPath ([⟨0, 0⟩, ⟨7, 5⟩] : List Point) =
      [Cmd.moveTo ((0 : ℤ) : ℚ) ((0 : ℤ) : ℚ),
       Cmd.lineTo ((7 : ℤ) : ℚ) ((5 : ℤ) : ℚ)] :=
  ⟨(drawPath_spec ([⟨0, 0⟩, ⟨2, 2⟩, ⟨4, 0⟩, ⟨6, 2⟩] : List Point) 3 rfl (by decide)).1,
   (drawPath_spec ([⟨0, 0⟩, ⟨2, 2⟩, ⟨4, 0⟩, ⟨6, 2⟩] : List Point) 3 rfl (by decide)).2.1
     0 (by decide),
   ((drawPath_spec ([⟨0, 0⟩, ⟨2, 2⟩, ⟨4, 0⟩, ⟨6, 2⟩] : List Point) 3 rfl (by decide)).2.2.1
     1 rfl).1,
   ((drawPath_spec ([⟨0, 0⟩, ⟨2, 2⟩, ⟨4, 0⟩, ⟨6, 2⟩] : List Point) 3 rfl (by decide)).2.2.1
     1 rfl).2,
   (drawPath_spec ([⟨0, 0⟩, ⟨7, 5⟩] : List Point) 1 rfl (by decide)).2.2.2 rfl⟩

end SimplyDraw
